import Mathlib

/-!
# Verification of the cua-mcp-server task-execution core

A shallow embedding of the agent task-execution loop (`lib/agent/execute.ts`),
its action-dispatch machinery (`lib/agent/actions/index.ts`), the progress
store adapter (`lib/agent/progress.ts`), the coordinate validator
(`lib/agent/validation.ts`) and the `run_task` budget clamping (`api/mcp.ts`).

Modelling conventions:
- JavaScript numbers used as counters are `Nat`; coordinates and budgets are
  `Int` (callers may pass negatives).
- Remote calls (the Anthropic planner, the CUA computer client, Vercel Blob
  `put`) are external effects.  They are modelled as oracles: the planner is a
  script of responses, a dispatched handler's behaviour is the `outcome` field
  carried by each directive (either a returned `ActionResult` or a thrown
  error message), and blob `put` is a per-attempt outcome function.
- Remote `keyUp` calls are recorded in a trace; the source wraps each call in
  `try/catch` and only logs a failure, so a key-up failure has no effect on
  control flow or state and needs no oracle.
- Wall-clock time is an oracle `elapsed : Nat → Nat` giving the elapsed
  milliseconds observed at the start of each loop iteration.
- The concurrent heartbeat writer (a `setInterval` that re-writes a snapshot
  of the current progress record while the planner call is pending) is not
  modelled: it writes the same `current_step` and `steps_summary` as the last
  main-loop write and touches only wall-clock fields.
- JavaScript string helpers (`includes`, `split`, `trim`, `toLowerCase`) are
  implemented on `List Char` by structural recursion so that all definitions
  evaluate by kernel reduction.
-/

/-! ## JavaScript string helpers -/

/-- `pat.isPrefixOf s` for char lists, then recurse: models JS
`String.prototype.includes` for a non-empty pattern. -/
def listContainsPat (pat : List Char) : List Char → Bool
  | [] => pat.isEmpty
  | c :: rest => pat.isPrefixOf (c :: rest) || listContainsPat pat rest

/-- JS `s.includes(pat)`. -/
def strContains (s pat : String) : Bool :=
  listContainsPat pat.data s.data

/-- Fuel-driven splitter mirroring JS `String.prototype.split` with a
non-empty string separator.  `fuel` is an upper bound on the length of the
remaining input; callers pass `length + 1` so the fuel never runs out. -/
def splitFuel (sep : List Char) : Nat → List Char → List Char → List (List Char)
  | 0, s, acc => [acc.reverse ++ s]
  | fuel + 1, s, acc =>
    match s with
    | [] => [acc.reverse]
    | c :: rest =>
      if sep.isPrefixOf (c :: rest) then
        acc.reverse :: splitFuel sep fuel ((c :: rest).drop sep.length) []
      else
        splitFuel sep fuel rest (c :: acc)

/-- JS `s.split(sep)` for a non-empty separator. -/
def jsSplit (s sep : String) : List String :=
  (splitFuel sep.data (s.data.length + 1) s.data []).map String.mk

/-- JS `s.trim()` (whitespace = space, tab, CR, LF). -/
def jsTrim (s : String) : String :=
  String.mk (((s.data.dropWhile Char.isWhitespace).reverse.dropWhile
    Char.isWhitespace).reverse)

/-- JS `s.toLowerCase()` restricted to ASCII, which is all the agent holds. -/
def lowerStr (s : String) : String :=
  String.mk (s.data.map Char.toLower)

/-- JS `a || b` on possibly-undefined strings (empty string is falsy). -/
def jsStrOr (a b : Option String) : Option String :=
  match a with
  | some s => if s == "" then b else some s
  | none => b

/-- JS truthiness of a possibly-undefined string. -/
def jsStrTruthy : Option String → Bool
  | some s => !(s == "")
  | none => false

/-- Keep an optional string only when JS considers it truthy (models
`if (v) record.field = v`). -/
def jsStrOpt (o : Option String) : Option String :=
  if jsStrTruthy o then o else none

/-! ## Coordinate validator (`lib/agent/validation.ts`, `validateCoordinates`) -/

/-- Validation result for coordinates. -/
structure CoordinateValidation where
  valid : Bool
  error : Option String
  deriving DecidableEq

/-- The bounds-violation message built by `validateCoordinates`. -/
def boundsErrorMsg (x y width height : Int) : String :=
  "Coordinates (" ++ toString x ++ ", " ++ toString y ++
    ") are outside display bounds (" ++ toString width ++ "x" ++
    toString height ++ ")"

/-- `validateCoordinates(x, y, width, height)`: invalid iff any coordinate is
outside `[0, width) × [0, height)`. -/
def validateCoordinates (x y width height : Int) : CoordinateValidation :=
  if x < 0 ∨ width ≤ x ∨ y < 0 ∨ height ≤ y then
    { valid := false, error := some (boundsErrorMsg x y width height) }
  else
    { valid := true, error := none }

/-! ## Action registry (`lib/agent/actions/index.ts`) -/

/-- The keys of the `ACTION_HANDLERS` registry object. -/
def ACTION_HANDLERS_KEYS : List String :=
  ["screenshot", "zoom", "mouse_move", "left_click", "right_click",
   "double_click", "triple_click", "middle_click", "left_click_drag",
   "left_mouse_down", "left_mouse_up", "type", "key", "hold_key", "scroll",
   "wait"]

/-- `ACTION_HANDLERS[action]` is defined. -/
def isRegistered (action : String) : Bool :=
  ACTION_HANDLERS_KEYS.contains action

/-- `OBSERVATION_ACTIONS`: actions that never consume step budget. -/
def OBSERVATION_ACTIONS : List String := ["screenshot", "zoom"]

/-- `NO_AUTO_RELEASE_ACTIONS` (`lib/agent/execute.ts`): actions that do not
trigger auto-release of held keys. -/
def NO_AUTO_RELEASE_ACTIONS : List String :=
  ["screenshot", "zoom", "hold_key", "wait"]

/-! ## Data model (`lib/agent/types.ts`) -/

/-- `ActionResult.content`: a string message or image blocks. -/
inductive JsContent where
  | str (s : String)
  | image
  deriving DecidableEq

/-- `ActionResult` returned by an action handler. -/
structure ActionResult where
  content : JsContent
  success : Bool
  error : Option String
  result : Option String
  deriving DecidableEq

/-- What one invocation of a handler does: return an `ActionResult`, or throw
(the remote side is an oracle, so the behaviour is data). -/
inductive HandlerOutcome where
  | returns (r : ActionResult)
  | throws (msg : String)
  deriving DecidableEq

/-- One `tool_use` directive from a planner response, together with the
oracle outcome of dispatching it. -/
structure Directive where
  action : String
  coordinate : Option (Int × Int)
  key : Option String
  text : Option String
  outcome : HandlerOutcome
  deriving DecidableEq

/-- One content block of a planner response. -/
inductive Block where
  | text (s : String)
  | toolUse (d : Directive)
  deriving DecidableEq

/-- One planner response: ordered content blocks plus whether
`stop_reason === "end_turn"`. -/
structure PlannerResponse where
  content : List Block
  stopEndTurn : Bool
  deriving DecidableEq

/-- One planner call: a response, or the call itself throwing. -/
inductive PlannerCall where
  | ok (r : PlannerResponse)
  | fault (msg : String)
  deriving DecidableEq

/-- `AgentStep`: the per-directive log entry. -/
structure AgentStep where
  step : Nat
  action : String
  reasoning : Option String
  coordinates : Option (Int × Int)
  result : Option String
  success : Bool
  error : Option String
  deriving DecidableEq

/-- `TaskProgress.last_action`. -/
structure LastAction where
  action : String
  reasoning : Option String
  result : Option String
  success : Bool
  coordinates : Option (Int × Int)
  deriving DecidableEq

/-- `TaskProgress.final_result`. -/
structure FinalResult where
  success : Bool
  summary : String
  total_steps : Nat
  error : Option String
  deriving DecidableEq

/-- `TaskProgress`: the externally visible progress record.  Identifier and
wall-clock fields (`task_id`, `started_at`, `updated_at`, `elapsed_ms`) are
not modelled. -/
structure TaskProgress where
  status : String
  current_step : Nat
  max_steps : Nat
  steps_summary : List String
  last_action : Option LastAction
  last_reasoning : Option String
  final_result : Option FinalResult
  deriving DecidableEq

/-! ## Progress helpers (`lib/agent/progress.ts`) -/

/-- Human-readable labels for action types (`ACTION_LABELS`). -/
def ACTION_LABELS : List (String × String) :=
  [("left_click", "Click"), ("right_click", "Right-click"),
   ("double_click", "Double-click"), ("triple_click", "Triple-click"),
   ("middle_click", "Middle-click"), ("type", "Type text"),
   ("key", "Key press"), ("scroll", "Scroll"), ("mouse_move", "Move cursor"),
   ("left_click_drag", "Drag")]

/-- `summarizeAction(action, coords)`. -/
def summarizeAction (action : String) (coords : Option (Int × Int)) : String :=
  let coordStr :=
    match coords with
    | some (x, y) => " at (" ++ toString x ++ ", " ++ toString y ++ ")"
    | none => ""
  let label :=
    match (ACTION_LABELS.lookup action) with
    | some l => l
    | none => String.mk (action.data.map (fun c => if c = '_' then ' ' else c))
  label ++ coordStr

/-- `finalizeTask`: mutate the record to a terminal status
(`lib/agent/progress.ts`, lines 98-127). -/
def finalizeTask (p : TaskProgress) (status : String) (success : Bool)
    (summary : String) (stepsCount : Nat) (error : Option String) :
    TaskProgress :=
  { p with
    status := status
    current_step := stepsCount
    final_result := some
      { success := success, summary := summary, total_steps := stepsCount,
        error := error } }

/-- Rolling-summary update: push, then shift once when the length exceeds 5
(`lib/agent/execute.ts`, lines 652-657). -/
def pushSummary (l : List String) (s : String) : List String :=
  let l2 := l ++ [s]
  if 5 < l2.length then l2.drop 1 else l2

/-! ## Progress store adapter retry loop (`lib/agent/progress.ts`,
`updateProgress`) -/

/-- Modelled from the spec: `RETRY_BACKOFF_BASE_MS` is declared in
`lib/agent/config.ts`, whose task-limit/retry section is not among the
provided sources.  The retry comment in `progress.ts` documents the backoff
sequence as `100ms, 200ms`, fixing the base at 100. -/
def RETRY_BACKOFF_BASE_MS : Nat := 100

/-- Outcome of one blob `put` attempt (oracle). -/
inductive PutOutcome where
  | ok (url : String)
  | err
  deriving DecidableEq

/-- The `for (attempt = 0; attempt <= retries; attempt++)` loop of
`updateProgress`.  Returns the blob url (or `none`, never throwing) together
with the trace of back-off sleeps performed between attempts.  `fuel` bounds
the remaining iterations; callers pass `retries + 1`. -/
def updateProgressAux (putO : Nat → PutOutcome) (retries : Nat) :
    Nat → Nat → List Nat → Option String × List Nat
  | 0, _, sleeps => (none, sleeps)
  | fuel + 1, attempt, sleeps =>
    match putO attempt with
    | .ok url => (some url, sleeps)
    | .err =>
      if attempt == retries then (none, sleeps)
      else
        updateProgressAux putO retries fuel (attempt + 1)
          (sleeps ++ [RETRY_BACKOFF_BASE_MS * (attempt + 1)])

/-- `updateProgress(taskId, progress, retries)`: the progress record is only
serialized, never mutated; a total function that returns `none` when every
attempt fails (the failure is logged and swallowed). -/
def updateProgress (putO : Nat → PutOutcome) (retries : Nat) :
    Option String × List Nat :=
  updateProgressAux putO retries (retries + 1) 0 []

/-! ## run_task budget clamping (`api/mcp.ts`, `executeTool`) -/

/-- Modelled from the spec: the task-limit constants live in
`lib/agent/config.ts`, which is not among the provided sources; the values
come from the repository documentation (CLAUDE.md, Constraints table:
`max_steps` default 100, hard max 100). -/
def DEFAULT_MAX_STEPS : Int := 100

/-- Modelled from the spec: see `DEFAULT_MAX_STEPS`. -/
def MAX_STEPS_LIMIT : Int := 100

/-- Modelled from the spec: see `DEFAULT_MAX_STEPS` (CLAUDE.md:
`timeout_seconds` default 750, hard max 750). -/
def DEFAULT_TIMEOUT_SECONDS : Int := 750

/-- Modelled from the spec: see `DEFAULT_TIMEOUT_SECONDS`. -/
def MAX_TIMEOUT_SECONDS : Int := 750

/-- `Math.min(Number.isFinite(raw) && raw > 0 ? raw : deflt, limit)`.
`none` models a non-finite `Number(...)` result (missing or non-numeric
argument). -/
def clampBudget (deflt limit : Int) (raw : Option Int) : Int :=
  min (match raw with
       | some v => if 0 < v then v else deflt
       | none => deflt) limit

/-- The `maxSteps` computation of the `run_task` branch. -/
def runTaskMaxSteps (raw : Option Int) : Int :=
  clampBudget DEFAULT_MAX_STEPS MAX_STEPS_LIMIT raw

/-- The `timeoutSeconds` computation of the `run_task` branch. -/
def runTaskTimeoutSeconds (raw : Option Int) : Int :=
  clampBudget DEFAULT_TIMEOUT_SECONDS MAX_TIMEOUT_SECONDS raw

/-! ## Orchestrator state (`lib/agent/execute.ts`, `executeTask`) -/

/-- The mutable state of one `executeTask` run.  `writes` is the trace of
progress records handed to `updateProgress` by the main loop (initial write,
per-meaningful-step writes, final write); `keyUps` is the trace of remote
`keyUp` calls. -/
structure LoopState where
  meaningfulSteps : Nat
  totalIterations : Nat
  heldKeys : List String
  steps : List AgentStep
  toolResults : Nat
  lastReasoning : Option String
  progress : TaskProgress
  writes : List TaskProgress
  keyUps : List String
  deriving DecidableEq

/-- The returned task result (identifier, duration and screen size are not
modelled). -/
structure RunResult where
  success : Bool
  summary : String
  steps : List AgentStep
  steps_taken : Nat
  error : Option String
  deriving DecidableEq

/-- A finished run: the returned result plus the final loop state (which
carries the write and key-up traces). -/
structure RunEnd where
  result : RunResult
  final : LoopState
  deriving DecidableEq

/-- Outcome of processing part of a planner response: continue the loop or
return from `executeTask`. -/
inductive BlockStep where
  | cont (st : LoopState)
  | halt (e : RunEnd)
  deriving DecidableEq

/-- The current_step values of the progress writes, in write order. -/
def writesSteps (st : LoopState) : List Nat :=
  st.writes.map TaskProgress.current_step

/-- Build a terminal `RunEnd`: finalize the progress record, append the final
write, and return the result (every return path of `executeTask` passes the
same step count to `finalizeTask` and to `steps_taken`). -/
def finalizeRun (st : LoopState) (status : String) (success : Bool)
    (summary : String) (stepsCount : Nat) (error : Option String) : RunEnd :=
  let p := finalizeTask st.progress status success summary stepsCount error
  { result :=
      { success := success, summary := summary, steps := st.steps,
        steps_taken := stepsCount, error := error },
    final := { st with progress := p, writes := st.writes ++ [p] } }

/-- `TASK_COMPLETE:` marker. -/
def TASK_COMPLETE_MARKER : String := "TASK_COMPLETE:"

/-- `TASK_FAILED:` marker. -/
def TASK_FAILED_MARKER : String := "TASK_FAILED:"

/-- `block.text.split(marker)[1].trim()`. -/
def markerTrailing (s pat : String) : String :=
  jsTrim ((jsSplit s pat).getD 1 "")

/-- The key a successful `hold_key` dispatch records:
`input.key || input.text`, skipped when falsy. -/
def keyToHold (d : Directive) : Option String :=
  match jsStrOr d.key d.text with
  | some s => if s == "" then none else some s
  | none => none

/-- Lines 610-616: remember a held key after a successful `hold_key`. -/
def trackHoldKeys (st : LoopState) (d : Directive) (success : Bool) :
    LoopState :=
  match d.action == "hold_key" && success, keyToHold d with
  | true, some k =>
    { st with
      heldKeys :=
        if st.heldKeys.contains (lowerStr k) then st.heldKeys
        else st.heldKeys ++ [lowerStr k] }
  | _, _ => st

/-- Lines 618-631: auto-release all held keys after a non-exempt action; a
`keyUp` failure is caught and logged, so the set is cleared unconditionally. -/
def autoReleaseKeys (st : LoopState) (action : String) : LoopState :=
  if !(NO_AUTO_RELEASE_ACTIONS.contains action) && !st.heldKeys.isEmpty then
    { st with keyUps := st.keyUps ++ st.heldKeys, heldKeys := [] }
  else st

/-- Lines 633-661: meaningful actions bump the step counter, refresh the
progress record (including the rolling summary) and write it synchronously. -/
def updateMeaningful (st : LoopState) (d : Directive) (r : ActionResult)
    (recSuccess : Bool) : LoopState :=
  if !(OBSERVATION_ACTIONS.contains d.action) then
    let m := st.meaningfulSteps + 1
    let p :=
      { st.progress with
        current_step := m
        last_action := some
          { action := d.action, reasoning := st.lastReasoning,
            result := (match r.content with | .str s => some s | .image => none),
            success := recSuccess, coordinates := d.coordinate }
        last_reasoning := st.lastReasoning
        steps_summary :=
          pushSummary st.progress.steps_summary
            (summarizeAction d.action d.coordinate) }
    { st with meaningfulSteps := m, progress := p, writes := st.writes ++ [p] }
  else st

/-- Lines 568-691: dispatch one `tool_use` block.  Unknown actions record a
failed step and continue; a thrown handler error is caught, recorded as a
failed step, and skips hold-tracking, auto-release and the meaningful-step
update. -/
def processToolUse (st : LoopState) (d : Directive) : LoopState :=
  let rec0 : AgentStep :=
    { step := st.steps.length + 1, action := d.action, reasoning := none,
      coordinates := d.coordinate, result := none, success := true,
      error := none }
  if !(isRegistered d.action) then
    { st with
      steps := st.steps ++
        [{ rec0 with
           success := false, error := some ("Unknown action: " ++ d.action) }],
      toolResults := st.toolResults + 1 }
  else
    match d.outcome with
    | .throws msg =>
      { st with
        steps := st.steps ++ [{ rec0 with success := false, error := some msg }],
        toolResults := st.toolResults + 1 }
    | .returns r =>
      let rec1 : AgentStep :=
        { rec0 with
          success := r.success
          error := jsStrOpt r.error
          result :=
            (match r.content with
             | .str s => some s
             | .image => jsStrOpt r.result)
          reasoning := jsStrOpt st.lastReasoning }
      let st1 := { st with steps := st.steps ++ [rec1] }
      let st2 := trackHoldKeys st1 d r.success
      let st3 := autoReleaseKeys st2 d.action
      let st4 := updateMeaningful st3 d r r.success
      { st4 with toolResults := st4.toolResults + 1 }

/-- Lines 509-566: one text block.  The reasoning capture happens only when
no marker is present; `TASK_COMPLETE:` is checked before `TASK_FAILED:`. -/
def processTextBlock (st : LoopState) (s : String) : BlockStep :=
  let st1 :=
    if !(strContains s TASK_COMPLETE_MARKER) &&
       !(strContains s TASK_FAILED_MARKER) then
      { st with lastReasoning := some (jsTrim s) }
    else st
  if strContains s TASK_COMPLETE_MARKER then
    .halt (finalizeRun st1 "completed" true
      (markerTrailing s TASK_COMPLETE_MARKER) st1.meaningfulSteps none)
  else if strContains s TASK_FAILED_MARKER then
    .halt (finalizeRun st1 "failed" false
      (markerTrailing s TASK_FAILED_MARKER) st1.meaningfulSteps
      (some "Task failed"))
  else .cont st1

/-- Process one content block. -/
def processBlock (st : LoopState) : Block → BlockStep
  | .text s => processTextBlock st s
  | .toolUse d => .cont (processToolUse st d)

/-- The `for (const block of response.content)` loop with its early returns. -/
def processBlocks : List Block → LoopState → BlockStep
  | [], st => .cont st
  | b :: bs, st =>
    match processBlock st b with
    | .halt e => .halt e
    | .cont st' => processBlocks bs st'

/-- First text block of a response (`response.content.find`). -/
def firstText : List Block → Option String
  | [] => none
  | .text s :: _ => some s
  | .toolUse _ :: bs => firstText bs

/-- Process one planner response: run the block loop (with a fresh
`toolResults` array), then lines 708-732: a response that stops with
`end_turn` and produced no tool results is treated as implicit completion. -/
def processResponse (r : PlannerResponse) (st : LoopState) : BlockStep :=
  match processBlocks r.content { st with toolResults := 0 } with
  | .halt e => .halt e
  | .cont st' =>
    if r.stopEndTurn && st'.toolResults == 0 then
      .halt (finalizeRun st' "completed" true
        ((firstText r.content).getD "Task completed") st'.meaningfulSteps none)
    else .cont st'

/-- Step-budget exhaustion message (line 763). -/
def stepsLimitMsg (maxSteps meaningful : Nat) : String :=
  "Reached " ++ toString maxSteps ++ " action limit (" ++
    toString meaningful ++ " actions taken)"

/-- Iteration-cap exhaustion message (line 764). -/
def safetyLimitMsg (total : Nat) : String :=
  "Safety limit reached (" ++ toString total ++ " total iterations)"

/-- Timeout error message (line 436). -/
def timeoutMsg (t : Nat) : String :=
  "Timeout after " ++ toString t ++ "s"

/-- Configuration of one run: the step budget, the time budget, and the
wall-clock oracle giving the elapsed milliseconds observed at the start of
iteration `n`. -/
structure Cfg where
  maxSteps : Nat
  timeoutSeconds : Nat
  elapsed : Nat → Nat

/-- The `while (meaningfulSteps < maxSteps && totalIterations <
maxTotalIterations)` guard, with `maxTotalIterations = maxSteps * 3`. -/
def loopGuard (cfg : Cfg) (st : LoopState) : Bool :=
  decide (st.meaningfulSteps < cfg.maxSteps) &&
    decide (st.totalIterations < cfg.maxSteps * 3)

/-- Lines 759-784: the post-loop exhaustion result.  The error string
distinguishes step-budget exhaustion from the iteration safety cap. -/
def mkExhaustRun (cfg : Cfg) (st : LoopState) : RunEnd :=
  let errorMsg :=
    if cfg.maxSteps ≤ st.meaningfulSteps then
      stepsLimitMsg cfg.maxSteps st.meaningfulSteps
    else safetyLimitMsg st.totalIterations
  finalizeRun st "failed" false "Max steps exceeded without completing task"
    st.meaningfulSteps (some errorMsg)

/-- Lines 429-450: the timeout return (both `finalizeTask` and the returned
result use `steps.length` here, not `meaningfulSteps`). -/
def mkTimeoutRun (cfg : Cfg) (st : LoopState) : RunEnd :=
  finalizeRun st "timeout" false "Task timed out" st.steps.length
    (some (timeoutMsg cfg.timeoutSeconds))

/-- Lines 733-756: the outer catch around the planner call. -/
def mkFaultRun (st : LoopState) (msg : String) : RunEnd :=
  finalizeRun st "failed" false ("Agent error: " ++ msg) st.meaningfulSteps
    (some msg)

/-- The main loop.  The planner oracle is a finite script; a run whose script
is exhausted while the loop would continue is modelled as the planner call
throwing (the `[]` case), which the source's outer catch turns into an
`Agent error` result. -/
def runLoop (cfg : Cfg) : List PlannerCall → LoopState → RunEnd
  | [], st =>
    if loopGuard cfg st then
      let st1 := { st with totalIterations := st.totalIterations + 1 }
      if cfg.timeoutSeconds * 1000 < cfg.elapsed st1.totalIterations then
        mkTimeoutRun cfg st1
      else mkFaultRun st1 "planner script exhausted"
    else mkExhaustRun cfg st
  | c :: rest, st =>
    if loopGuard cfg st then
      let st1 := { st with totalIterations := st.totalIterations + 1 }
      if cfg.timeoutSeconds * 1000 < cfg.elapsed st1.totalIterations then
        mkTimeoutRun cfg st1
      else
        match c with
        | .fault msg => mkFaultRun st1 msg
        | .ok r =>
          match processResponse r st1 with
          | .halt e => e
          | .cont st2 => runLoop cfg rest st2
    else mkExhaustRun cfg st

/-- The initial progress record (lines 363-375). -/
def initProgress (maxSteps : Nat) : TaskProgress :=
  { status := "running", current_step := 0, max_steps := maxSteps,
    steps_summary := [], last_action := none, last_reasoning := none,
    final_result := none }

/-- The initial loop state, including the initial progress write. -/
def initState (maxSteps : Nat) : LoopState :=
  { meaningfulSteps := 0, totalIterations := 0, heldKeys := [], steps := [],
    toolResults := 0, lastReasoning := none,
    progress := initProgress maxSteps,
    writes := [initProgress maxSteps], keyUps := [] }

/-- `executeTask`: initialize progress and run the loop against the planner
script. -/
def executeTask (cfg : Cfg) (script : List PlannerCall) : RunEnd :=
  runLoop cfg script (initState cfg.maxSteps)

/-! ## Derived notions used by the theorems -/

/-- A dispatch that increments the meaningful-step counter: a registered,
non-observation action whose handler returns (rather than throws). -/
def meaningfulDisp (d : Directive) : Bool :=
  isRegistered d.action && !(OBSERVATION_ACTIONS.contains d.action) &&
    (match d.outcome with | .returns _ => true | .throws _ => false)

/-- Contribution of one block to the meaningful-step counter. -/
def blockMeaningful : Block → Nat
  | .text _ => 0
  | .toolUse d => if meaningfulDisp d then 1 else 0

/-- Total meaningful dispatches carried by a list of blocks. -/
def countMeaningful (blocks : List Block) : Nat :=
  (blocks.map blockMeaningful).sum

/-- A planner call carries at most `k` meaningful dispatches. -/
def callMeaningfulBound (k : Nat) : PlannerCall → Prop
  | .ok r => countMeaningful r.content ≤ k
  | .fault _ => True

/-- Invariant for the step-counter claims: the written `current_step` values
form a non-decreasing chain, each bounded by the live counter, which in turn
never exceeds the number of recorded steps (every meaningful increment is
preceded by appending exactly one step record). -/
structure C1Inv (st : LoopState) : Prop where
  chain : List.Chain' (· ≤ ·) (writesSteps st)
  le_m : ∀ x ∈ writesSteps st, x ≤ st.meaningfulSteps
  m_le_steps : st.meaningfulSteps ≤ st.steps.length

/-- Invariant for the rolling-summary claim. -/
def SumInv (st : LoopState) : Prop :=
  st.progress.steps_summary.length ≤ 5 ∧
    ∀ p ∈ st.writes, p.steps_summary.length ≤ 5

/-! ## Rolling-summary lemmas -/

theorem pushSummary_length_le (l : List String) (s : String)
    (h : l.length ≤ 5) : (pushSummary l s).length ≤ 5 := by
  unfold pushSummary
  dsimp only
  split <;> simp_all

theorem pushSummary_fifo (l : List String) (s : String) (h : l.length = 5) :
    pushSummary l s = l.drop 1 ++ [s] := by
  unfold pushSummary
  dsimp only
  split
  · rw [List.drop_append_of_le_length (by omega)]
  · simp_all

/-! ## Stage lemmas for `processToolUse` -/

theorem trackHoldKeys_meaningfulSteps (st : LoopState) (d : Directive)
    (b : Bool) : (trackHoldKeys st d b).meaningfulSteps = st.meaningfulSteps := by
  unfold trackHoldKeys; split <;> rfl

theorem trackHoldKeys_totalIterations (st : LoopState) (d : Directive)
    (b : Bool) : (trackHoldKeys st d b).totalIterations = st.totalIterations := by
  unfold trackHoldKeys; split <;> rfl

theorem trackHoldKeys_writes (st : LoopState) (d : Directive) (b : Bool) :
    (trackHoldKeys st d b).writes = st.writes := by
  unfold trackHoldKeys; split <;> rfl

theorem trackHoldKeys_progress (st : LoopState) (d : Directive) (b : Bool) :
    (trackHoldKeys st d b).progress = st.progress := by
  unfold trackHoldKeys; split <;> rfl

theorem trackHoldKeys_keyUps (st : LoopState) (d : Directive) (b : Bool) :
    (trackHoldKeys st d b).keyUps = st.keyUps := by
  unfold trackHoldKeys; split <;> rfl

theorem trackHoldKeys_steps (st : LoopState) (d : Directive) (b : Bool) :
    (trackHoldKeys st d b).steps = st.steps := by
  unfold trackHoldKeys; split <;> rfl

theorem trackHoldKeys_of_ne (st : LoopState) (d : Directive) (b : Bool)
    (h : (d.action == "hold_key") = false) : trackHoldKeys st d b = st := by
  unfold trackHoldKeys
  rw [h]
  simp

theorem autoReleaseKeys_meaningfulSteps (st : LoopState) (a : String) :
    (autoReleaseKeys st a).meaningfulSteps = st.meaningfulSteps := by
  unfold autoReleaseKeys; split <;> rfl

theorem autoReleaseKeys_totalIterations (st : LoopState) (a : String) :
    (autoReleaseKeys st a).totalIterations = st.totalIterations := by
  unfold autoReleaseKeys; split <;> rfl

theorem autoReleaseKeys_writes (st : LoopState) (a : String) :
    (autoReleaseKeys st a).writes = st.writes := by
  unfold autoReleaseKeys; split <;> rfl

theorem autoReleaseKeys_progress (st : LoopState) (a : String) :
    (autoReleaseKeys st a).progress = st.progress := by
  unfold autoReleaseKeys; split <;> rfl

theorem autoReleaseKeys_steps (st : LoopState) (a : String) :
    (autoReleaseKeys st a).steps = st.steps := by
  unfold autoReleaseKeys; split <;> rfl

theorem autoReleaseKeys_release (st : LoopState) (a : String)
    (ha : NO_AUTO_RELEASE_ACTIONS.contains a = false)
    (hne : st.heldKeys ≠ []) :
    autoReleaseKeys st a =
      { st with keyUps := st.keyUps ++ st.heldKeys, heldKeys := [] } := by
  unfold autoReleaseKeys
  rw [ha]
  simp [List.isEmpty_iff, hne]

theorem autoReleaseKeys_exempt (st : LoopState) (a : String)
    (ha : NO_AUTO_RELEASE_ACTIONS.contains a = true) :
    autoReleaseKeys st a = st := by
  unfold autoReleaseKeys
  rw [ha]
  simp

theorem updateMeaningful_heldKeys (st : LoopState) (d : Directive)
    (r : ActionResult) (b : Bool) :
    (updateMeaningful st d r b).heldKeys = st.heldKeys := by
  unfold updateMeaningful; split <;> rfl

theorem updateMeaningful_keyUps (st : LoopState) (d : Directive)
    (r : ActionResult) (b : Bool) :
    (updateMeaningful st d r b).keyUps = st.keyUps := by
  unfold updateMeaningful; split <;> rfl

theorem updateMeaningful_totalIterations (st : LoopState) (d : Directive)
    (r : ActionResult) (b : Bool) :
    (updateMeaningful st d r b).totalIterations = st.totalIterations := by
  unfold updateMeaningful; split <;> rfl

theorem updateMeaningful_steps (st : LoopState) (d : Directive)
    (r : ActionResult) (b : Bool) :
    (updateMeaningful st d r b).steps = st.steps := by
  unfold updateMeaningful; split <;> rfl

theorem updateMeaningful_meaningfulSteps (st : LoopState) (d : Directive)
    (r : ActionResult) (b : Bool) :
    (updateMeaningful st d r b).meaningfulSteps =
      st.meaningfulSteps +
        (if OBSERVATION_ACTIONS.contains d.action then 0 else 1) := by
  unfold updateMeaningful
  split <;> simp_all

theorem updateMeaningful_writesSteps (st : LoopState) (d : Directive)
    (r : ActionResult) (b : Bool) :
    writesSteps (updateMeaningful st d r b) =
      writesSteps st ++
        (if OBSERVATION_ACTIONS.contains d.action then []
         else [st.meaningfulSteps + 1]) := by
  unfold updateMeaningful writesSteps
  cases hobs : OBSERVATION_ACTIONS.contains d.action <;> simp [hobs]

/-- `updateMeaningful_writesSteps` with `writesSteps` unfolded (definitional). -/
theorem updateMeaningful_writes_map (st : LoopState) (d : Directive)
    (r : ActionResult) (b : Bool) :
    (updateMeaningful st d r b).writes.map TaskProgress.current_step =
      st.writes.map TaskProgress.current_step ++
        (if OBSERVATION_ACTIONS.contains d.action then []
         else [st.meaningfulSteps + 1]) :=
  updateMeaningful_writesSteps st d r b

theorem updateMeaningful_sumInv (st : LoopState) (d : Directive)
    (r : ActionResult) (b : Bool) (h : SumInv st) :
    SumInv (updateMeaningful st d r b) := by
  obtain ⟨h1, h2⟩ := h
  unfold updateMeaningful
  cases hobs : OBSERVATION_ACTIONS.contains d.action <;> simp [hobs]
  · refine ⟨pushSummary_length_le _ _ h1, ?_⟩
    intro p hp
    rcases List.mem_append.1 hp with hp | hp
    · exact h2 p hp
    · simp at hp
      subst hp
      exact pushSummary_length_le _ _ h1
  · exact ⟨h1, h2⟩

/-- Transport `SumInv` along states with equal progress and writes. -/
theorem sumInv_congr {st st' : LoopState} (hp : st'.progress = st.progress)
    (hw : st'.writes = st.writes) (h : SumInv st) : SumInv st' := by
  obtain ⟨h1, h2⟩ := h
  exact ⟨hp ▸ h1, hw ▸ h2⟩

/-- Transport `C1Inv` along states with equal write traces, counters and
step logs. -/
theorem c1Inv_congr {st st' : LoopState}
    (hw : writesSteps st' = writesSteps st)
    (hm : st'.meaningfulSteps = st.meaningfulSteps)
    (hs : st'.steps.length = st.steps.length) (h : C1Inv st) :
    C1Inv st' := by
  obtain ⟨h1, h2, h3⟩ := h
  exact ⟨hw ▸ h1, by rw [hw, hm]; exact h2, by rw [hm, hs]; exact h3⟩

/-! ## Composite lemmas for `processToolUse` -/

theorem processToolUse_totalIterations (st : LoopState) (d : Directive) :
    (processToolUse st d).totalIterations = st.totalIterations := by
  unfold processToolUse
  cases hreg : isRegistered d.action
  · simp [hreg]
  · cases ho : d.outcome with
    | throws m => simp [hreg, ho]
    | returns r =>
      simp only [hreg, ho, Bool.not_true, Bool.false_eq_true, if_false]
      simp [updateMeaningful_totalIterations, autoReleaseKeys_totalIterations,
        trackHoldKeys_totalIterations]

theorem processToolUse_meaningfulSteps (st : LoopState) (d : Directive) :
    (processToolUse st d).meaningfulSteps =
      st.meaningfulSteps + (if meaningfulDisp d then 1 else 0) := by
  unfold processToolUse meaningfulDisp
  cases hreg : isRegistered d.action
  · simp [hreg]
  · cases ho : d.outcome with
    | throws m => simp [hreg, ho]
    | returns r =>
      simp only [hreg, ho, Bool.not_true, Bool.false_eq_true, if_false]
      simp only [updateMeaningful_meaningfulSteps, autoReleaseKeys_meaningfulSteps,
        trackHoldKeys_meaningfulSteps]
      cases hobs : OBSERVATION_ACTIONS.contains d.action <;> simp [hobs]

theorem processToolUse_writesSteps (st : LoopState) (d : Directive) :
    writesSteps (processToolUse st d) =
      writesSteps st ++
        (if meaningfulDisp d then [st.meaningfulSteps + 1] else []) := by
  unfold processToolUse meaningfulDisp
  cases hreg : isRegistered d.action
  · simp [hreg, writesSteps]
  · cases ho : d.outcome with
    | throws m => simp [hreg, ho, writesSteps]
    | returns r =>
      simp only [hreg, ho, Bool.not_true, Bool.false_eq_true, if_false]
      simp only [writesSteps]
      dsimp only
      rw [updateMeaningful_writes_map, autoReleaseKeys_writes, trackHoldKeys_writes,
        autoReleaseKeys_meaningfulSteps, trackHoldKeys_meaningfulSteps]
      dsimp only
      cases hobs : OBSERVATION_ACTIONS.contains d.action <;> simp [hobs]

theorem processToolUse_steps_length (st : LoopState) (d : Directive) :
    (processToolUse st d).steps.length = st.steps.length + 1 := by
  unfold processToolUse
  cases hreg : isRegistered d.action
  · simp [hreg]
  · cases ho : d.outcome with
    | throws m => simp [hreg, ho]
    | returns r =>
      simp only [hreg, ho, Bool.not_true, Bool.false_eq_true, if_false]
      simp [updateMeaningful_steps, autoReleaseKeys_steps, trackHoldKeys_steps]

theorem processToolUse_progress_summary_le (st : LoopState) (d : Directive)
    (h : st.progress.steps_summary.length ≤ 5) :
    (processToolUse st d).progress.steps_summary.length ≤ 5 := by
  unfold processToolUse
  cases hreg : isRegistered d.action
  · simpa [hreg] using h
  · cases ho : d.outcome with
    | throws m => simpa [hreg, ho] using h
    | returns r =>
      simp only [hreg, ho, Bool.not_true, Bool.false_eq_true, if_false]
      unfold updateMeaningful
      cases hobs : OBSERVATION_ACTIONS.contains d.action
      · simp only [hobs, Bool.not_false, if_true]
        rw [autoReleaseKeys_progress, trackHoldKeys_progress]
        exact pushSummary_length_le _ _ h
      · simp only [hobs, Bool.not_true, Bool.false_eq_true, if_false]
        rw [autoReleaseKeys_progress, trackHoldKeys_progress]
        exact h

theorem processToolUse_writes_summary_le (st : LoopState) (d : Directive)
    (h1 : st.progress.steps_summary.length ≤ 5)
    (h2 : ∀ p ∈ st.writes, p.steps_summary.length ≤ 5) :
    ∀ p ∈ (processToolUse st d).writes, p.steps_summary.length ≤ 5 := by
  unfold processToolUse
  cases hreg : isRegistered d.action
  · simpa [hreg] using h2
  · cases ho : d.outcome with
    | throws m => simpa [hreg, ho] using h2
    | returns r =>
      simp only [hreg, ho, Bool.not_true, Bool.false_eq_true, if_false]
      unfold updateMeaningful
      cases hobs : OBSERVATION_ACTIONS.contains d.action
      · simp only [hobs, Bool.not_false, if_true]
        rw [autoReleaseKeys_writes, trackHoldKeys_writes,
          autoReleaseKeys_progress, trackHoldKeys_progress]
        intro p hp
        rcases List.mem_append.1 hp with hp | hp
        · exact h2 p hp
        · simp at hp
          subst hp
          exact pushSummary_length_le _ _ h1
      · simp only [hobs, Bool.not_true, Bool.false_eq_true, if_false]
        rw [autoReleaseKeys_writes, trackHoldKeys_writes]
        exact h2

theorem processToolUse_sumInv (st : LoopState) (d : Directive) (h : SumInv st) :
    SumInv (processToolUse st d) :=
  ⟨processToolUse_progress_summary_le st d h.1,
   processToolUse_writes_summary_le st d h.1 h.2⟩

/-! ## Text-block lemmas -/

theorem processTextBlock_cont {st st' : LoopState} {s : String}
    (h : processTextBlock st s = .cont st') :
    st' = { st with lastReasoning := some (jsTrim s) } := by
  unfold processTextBlock at h
  by_cases hc : strContains s TASK_COMPLETE_MARKER
  · simp [hc] at h
  · by_cases hf : strContains s TASK_FAILED_MARKER
    · simp [hc, hf] at h
    · simp [hc, hf] at h
      exact h.symm

theorem processTextBlock_halt {st : LoopState} {s : String} {e : RunEnd}
    (h : processTextBlock st s = .halt e) :
    (strContains s TASK_COMPLETE_MARKER = true ∧
      e = finalizeRun st "completed" true
        (markerTrailing s TASK_COMPLETE_MARKER) st.meaningfulSteps none) ∨
    (strContains s TASK_COMPLETE_MARKER = false ∧
      strContains s TASK_FAILED_MARKER = true ∧
      e = finalizeRun st "failed" false
        (markerTrailing s TASK_FAILED_MARKER) st.meaningfulSteps
        (some "Task failed")) := by
  unfold processTextBlock at h
  by_cases hc : strContains s TASK_COMPLETE_MARKER
  · left
    refine ⟨hc, ?_⟩
    simp [hc] at h
    exact h.symm
  · by_cases hf : strContains s TASK_FAILED_MARKER
    · right
      refine ⟨by simpa using hc, hf, ?_⟩
      simp [hc, hf] at h
      exact h.symm
    · simp [hc, hf] at h

/-! ## `finalizeRun` lemmas -/

theorem finalizeRun_final_writesSteps (st : LoopState) (a : String) (b : Bool)
    (c : String) (n : Nat) (e : Option String) :
    writesSteps (finalizeRun st a b c n e).final = writesSteps st ++ [n] := by
  unfold finalizeRun finalizeTask writesSteps
  simp

theorem finalizeRun_final_meaningfulSteps (st : LoopState) (a : String)
    (b : Bool) (c : String) (n : Nat) (e : Option String) :
    (finalizeRun st a b c n e).final.meaningfulSteps = st.meaningfulSteps := rfl

theorem finalizeRun_final_totalIterations (st : LoopState) (a : String)
    (b : Bool) (c : String) (n : Nat) (e : Option String) :
    (finalizeRun st a b c n e).final.totalIterations = st.totalIterations := rfl

theorem finalizeRun_sumInv {st : LoopState} (a : String) (b : Bool)
    (c : String) (n : Nat) (e : Option String) (h : SumInv st) :
    SumInv (finalizeRun st a b c n e).final := by
  obtain ⟨h1, h2⟩ := h
  unfold finalizeRun finalizeTask
  refine ⟨h1, ?_⟩
  intro p hp
  dsimp only at hp
  rcases List.mem_append.1 hp with hp | hp
  · exact h2 p hp
  · simp at hp
    subst hp
    exact h1

/-- Appending a finalize write with the current meaningful-step count
preserves `C1Inv`. -/
theorem finalizeRun_c1Inv {st : LoopState} (a : String) (b : Bool)
    (c : String) (e : Option String) (h : C1Inv st) :
    C1Inv (finalizeRun st a b c st.meaningfulSteps e).final := by
  obtain ⟨h1, h2, h3⟩ := h
  constructor
  · rw [finalizeRun_final_writesSteps]
    refine List.Chain'.append h1 (List.chain'_singleton _) ?_
    intro x hx y hy
    simp at hy
    subst hy
    obtain ⟨hne, hx'⟩ := List.mem_getLast?_eq_getLast hx
    exact h2 x (hx' ▸ List.getLast_mem hne)
  · intro x hx
    rw [finalizeRun_final_writesSteps] at hx
    rw [finalizeRun_final_meaningfulSteps]
    rcases List.mem_append.1 hx with hx | hx
    · exact h2 x hx
    · simp at hx
      subst hx
      exact le_refl _
  · exact h3

/-! ## Block-list lemmas -/

theorem countMeaningful_nil : countMeaningful [] = 0 := rfl

theorem countMeaningful_cons (b : Block) (bs : List Block) :
    countMeaningful (b :: bs) = blockMeaningful b + countMeaningful bs := by
  simp [countMeaningful]

theorem processBlocks_append (l1 l2 : List Block) (st : LoopState) :
    processBlocks (l1 ++ l2) st =
      match processBlocks l1 st with
      | .cont st' => processBlocks l2 st'
      | .halt e => .halt e := by
  induction l1 generalizing st with
  | nil => simp [processBlocks]
  | cons b bs ih =>
    simp only [List.cons_append, processBlocks]
    cases processBlock st b with
    | halt e => rfl
    | cont st' => exact ih st'

theorem processToolUse_c1Inv (st : LoopState) (d : Directive) (h : C1Inv st) :
    C1Inv (processToolUse st d) := by
  obtain ⟨h1, h2, h3⟩ := h
  constructor
  · rw [processToolUse_writesSteps]
    cases hm : meaningfulDisp d
    · simpa using h1
    · simp only [if_true]
      refine List.Chain'.append h1 (List.chain'_singleton _) ?_
      intro x hx y hy
      simp at hy
      subst hy
      obtain ⟨hne, hx'⟩ := List.mem_getLast?_eq_getLast hx
      exact le_trans (h2 x (hx' ▸ List.getLast_mem hne)) (Nat.le_succ _)
  · intro x hx
    rw [processToolUse_writesSteps] at hx
    rw [processToolUse_meaningfulSteps]
    cases hm : meaningfulDisp d
    · simp only [hm, Bool.false_eq_true, if_false, List.append_nil] at hx
      simpa using h2 x hx
    · simp only [hm, if_true] at hx ⊢
      rcases List.mem_append.1 hx with hx | hx
      · exact le_trans (h2 x hx) (Nat.le_succ _)
      · simp at hx
        omega
  · rw [processToolUse_meaningfulSteps, processToolUse_steps_length]
    cases hm : meaningfulDisp d <;> simp [hm] <;> omega


/-- Step equation of the block loop. -/
theorem processBlocks_cons (b : Block) (bs : List Block) (st : LoopState) :
    processBlocks (b :: bs) st =
      match processBlock st b with
      | .halt e => .halt e
      | .cont st' => processBlocks bs st' := rfl

/-- The counter/write-trace invariant carried through part of a response:
relative to the counters `m0`, `t0` at the start and a bound `cnt` on the
remaining meaningful dispatches. -/
def C1Step (m0 t0 cnt : Nat) : BlockStep → Prop
  | .cont st' =>
      C1Inv st' ∧ m0 ≤ st'.meaningfulSteps ∧
      st'.meaningfulSteps ≤ m0 + cnt ∧ st'.totalIterations = t0
  | .halt e =>
      C1Inv e.final ∧ m0 ≤ e.final.meaningfulSteps ∧
      e.final.meaningfulSteps ≤ m0 + cnt ∧ e.final.totalIterations = t0

theorem C1Step_shift {m1 t cnt1 : Nat} {b : BlockStep} (m0 cnt0 : Nat)
    (h : C1Step m1 t cnt1 b) (hm : m0 ≤ m1) (hc : m1 + cnt1 ≤ m0 + cnt0) :
    C1Step m0 t cnt0 b := by
  cases b with
  | cont st' =>
    obtain ⟨hi, h1, h2, h3⟩ := h
    exact ⟨hi, le_trans hm h1, by omega, h3⟩
  | halt e =>
    obtain ⟨hi, h1, h2, h3⟩ := h
    exact ⟨hi, le_trans hm h1, by omega, h3⟩

theorem processBlocks_c1 :
    ∀ (blocks : List Block) (st : LoopState), C1Inv st →
    C1Step st.meaningfulSteps st.totalIterations (countMeaningful blocks)
      (processBlocks blocks st) := by
  intro blocks
  induction blocks with
  | nil =>
    intro st h
    exact ⟨h, le_refl _, Nat.le_add_right _ _, rfl⟩
  | cons b bs ih =>
    intro st h
    rw [processBlocks_cons]
    cases b with
    | text s =>
      simp only [processBlock]
      cases hpb : processTextBlock st s with
      | halt e =>
        simp only
        rcases processTextBlock_halt hpb with ⟨_, he⟩ | ⟨_, _, he⟩ <;>
          subst he <;>
          exact ⟨finalizeRun_c1Inv _ _ _ _ h,
            le_of_eq (finalizeRun_final_meaningfulSteps _ _ _ _ _ _).symm,
            by rw [finalizeRun_final_meaningfulSteps]; exact Nat.le_add_right _ _,
            finalizeRun_final_totalIterations _ _ _ _ _ _⟩
      | cont st' =>
        simp only
        have hst' := processTextBlock_cont hpb
        subst hst'
        have H := ih { st with lastReasoning := some (jsTrim s) }
          (@c1Inv_congr st { st with lastReasoning := some (jsTrim s) } rfl rfl
            rfl h)
        refine C1Step_shift _ _ H (le_refl _) ?_
        rw [countMeaningful_cons]
        simp [blockMeaningful]
    | toolUse d =>
      simp only [processBlock]
      have H := ih (processToolUse st d) (processToolUse_c1Inv st d h)
      have hm := processToolUse_meaningfulSteps st d
      have ht := processToolUse_totalIterations st d
      rw [hm, ht] at H
      refine C1Step_shift _ _ H (Nat.le_add_right _ _) ?_
      rw [countMeaningful_cons]
      simp only [blockMeaningful]
      omega

theorem processResponse_c1 (r : PlannerResponse) (st : LoopState)
    (h : C1Inv st) :
    C1Step st.meaningfulSteps st.totalIterations (countMeaningful r.content)
      (processResponse r st) := by
  unfold processResponse
  have H := processBlocks_c1 r.content { st with toolResults := 0 }
    (@c1Inv_congr st { st with toolResults := 0 } rfl rfl rfl h)
  cases hpb : processBlocks r.content { st with toolResults := 0 } with
  | halt e =>
    rw [hpb] at H
    exact H
  | cont st' =>
    rw [hpb] at H
    obtain ⟨hi, h1, h2, h3⟩ := H
    by_cases hend : (r.stopEndTurn && st'.toolResults == 0) = true
    · simp only [hend, if_true]
      exact ⟨finalizeRun_c1Inv _ _ _ _ hi,
        by rw [finalizeRun_final_meaningfulSteps]; exact h1,
        by rw [finalizeRun_final_meaningfulSteps]; exact h2,
        by rw [finalizeRun_final_totalIterations]; exact h3⟩
    · simp only [Bool.not_eq_true] at hend
      simp only [hend, Bool.false_eq_true, if_false]
      exact ⟨hi, h1, h2, h3⟩

/-! ## Terminal-result helper lemmas -/

theorem mkExhaustRun_c1Inv (cfg : Cfg) {st : LoopState} (h : C1Inv st) :
    C1Inv (mkExhaustRun cfg st).final :=
  finalizeRun_c1Inv _ _ _ _ h

theorem mkExhaustRun_final_meaningfulSteps (cfg : Cfg) (st : LoopState) :
    (mkExhaustRun cfg st).final.meaningfulSteps = st.meaningfulSteps := rfl

theorem mkExhaustRun_final_totalIterations (cfg : Cfg) (st : LoopState) :
    (mkExhaustRun cfg st).final.totalIterations = st.totalIterations := rfl

theorem mkFaultRun_c1Inv {st : LoopState} (msg : String) (h : C1Inv st) :
    C1Inv (mkFaultRun st msg).final :=
  finalizeRun_c1Inv _ _ _ _ h

theorem mkFaultRun_final_meaningfulSteps (st : LoopState) (msg : String) :
    (mkFaultRun st msg).final.meaningfulSteps = st.meaningfulSteps := rfl

theorem mkFaultRun_final_totalIterations (st : LoopState) (msg : String) :
    (mkFaultRun st msg).final.totalIterations = st.totalIterations := rfl

/-- Unfolding `loopGuard = true`. -/
theorem loopGuard_true {cfg : Cfg} {st : LoopState}
    (h : loopGuard cfg st = true) :
    st.meaningfulSteps < cfg.maxSteps ∧ st.totalIterations < cfg.maxSteps * 3 := by
  simpa [loopGuard] using h

/-! ## Main-loop invariant: counters and write trace -/

/-- What holds of a finished run with write-bound `B` and iteration bound
`T`: the write trace is a non-decreasing chain, the iteration counter is
within `T`, every write except possibly the final one is within `B`, and
when the run did not end in a timeout the final write is within `B` as well
(a timeout finalization writes the full step-record count instead). -/
def RunC1 (B T : Nat) (e : RunEnd) : Prop :=
  List.Chain' (· ≤ ·) (writesSteps e.final) ∧
  e.final.totalIterations ≤ T ∧
  (∀ x ∈ (writesSteps e.final).dropLast, x ≤ B) ∧
  (e.final.progress.status ≠ "timeout" →
    ∀ x ∈ writesSteps e.final, x ≤ B)

/-- Any finalization at the current meaningful-step count yields `RunC1`. -/
theorem finalizeRun_runC1 {st : LoopState} (a : String) (b : Bool)
    (c : String) (e : Option String) (B T : Nat) (h : C1Inv st)
    (hm : st.meaningfulSteps ≤ B) (ht : st.totalIterations ≤ T) :
    RunC1 B T (finalizeRun st a b c st.meaningfulSteps e) := by
  refine ⟨(finalizeRun_c1Inv a b c e h).chain, ?_, ?_, ?_⟩
  · rw [finalizeRun_final_totalIterations]
    exact ht
  · intro x hx
    rw [finalizeRun_final_writesSteps, List.dropLast_concat] at hx
    exact le_trans (h.le_m x hx) hm
  · intro _ x hx
    rw [finalizeRun_final_writesSteps] at hx
    rcases List.mem_append.1 hx with hx | hx
    · exact le_trans (h.le_m x hx) hm
    · simp at hx
      subst hx
      exact hm

/-- The exhaustion result satisfies `RunC1`. -/
theorem mkExhaustRun_runC1 (cfg : Cfg) {st : LoopState} (B T : Nat)
    (h : C1Inv st) (hm : st.meaningfulSteps ≤ B)
    (ht : st.totalIterations ≤ T) : RunC1 B T (mkExhaustRun cfg st) :=
  finalizeRun_runC1 _ _ _ _ B T h hm ht

/-- The planner-fault result satisfies `RunC1`. -/
theorem mkFaultRun_runC1 {st : LoopState} (msg : String) (B T : Nat)
    (h : C1Inv st) (hm : st.meaningfulSteps ≤ B)
    (ht : st.totalIterations ≤ T) : RunC1 B T (mkFaultRun st msg) :=
  finalizeRun_runC1 _ _ _ _ B T h hm ht

/-- The timeout result satisfies `RunC1`: its finalization writes
`steps.length`, which dominates every earlier write via
`meaningfulSteps ≤ steps.length`, keeping the trace monotone; the bound on
the final write is claimed only for non-timeout runs, so the last conjunct
is vacuous here. -/
theorem mkTimeoutRun_runC1 (cfg : Cfg) {st : LoopState} (B T : Nat)
    (h : C1Inv st) (hm : st.meaningfulSteps ≤ B)
    (ht : st.totalIterations ≤ T) : RunC1 B T (mkTimeoutRun cfg st) := by
  unfold mkTimeoutRun
  refine ⟨?_, ht, ?_, ?_⟩
  · rw [finalizeRun_final_writesSteps]
    refine List.Chain'.append h.chain (List.chain'_singleton _) ?_
    intro x hx y hy
    simp at hy
    subst hy
    obtain ⟨hne, hx'⟩ := List.mem_getLast?_eq_getLast hx
    exact le_trans (h.le_m x (hx' ▸ List.getLast_mem hne)) h.m_le_steps
  · intro x hx
    rw [finalizeRun_final_writesSteps, List.dropLast_concat] at hx
    exact le_trans (h.le_m x hx) hm
  · intro hne
    exact absurd rfl hne

/-- A halt carrying `C1Inv` of its final state satisfies `RunC1`. -/
theorem haltC1_runC1 {e : RunEnd} (B T : Nat) (hi : C1Inv e.final)
    (hm : e.final.meaningfulSteps ≤ B) (ht : e.final.totalIterations ≤ T) :
    RunC1 B T e := by
  refine ⟨hi.chain, ht, ?_, ?_⟩
  · intro x hx
    exact le_trans (hi.le_m x (List.mem_of_mem_dropLast hx)) hm
  · intro _ x hx
    exact le_trans (hi.le_m x hx) hm

theorem runLoop_c1 (cfg : Cfg) (k : Nat) :
    ∀ (script : List PlannerCall) (st : LoopState),
    (∀ c ∈ script, callMeaningfulBound k c) →
    C1Inv st → st.totalIterations ≤ cfg.maxSteps * 3 →
    st.meaningfulSteps ≤ cfg.maxSteps - 1 + k →
    RunC1 (cfg.maxSteps - 1 + k) (cfg.maxSteps * 3)
      (runLoop cfg script st) := by
  intro script
  induction script with
  | nil =>
    intro st hsc h htot hm
    simp only [runLoop]
    cases hg : loopGuard cfg st with
    | false =>
      simp only [Bool.false_eq_true, if_false]
      exact mkExhaustRun_runC1 cfg _ _ h hm htot
    | true =>
      simp only [if_true]
      obtain ⟨hg1, hg2⟩ := loopGuard_true hg
      have h1 : C1Inv { st with totalIterations := st.totalIterations + 1 } :=
        @c1Inv_congr st { st with totalIterations := st.totalIterations + 1 }
          rfl rfl rfl h
      by_cases htmo :
          cfg.timeoutSeconds * 1000 < cfg.elapsed (st.totalIterations + 1)
      · rw [if_pos htmo]
        exact mkTimeoutRun_runC1 cfg _ _ h1 hm
          (show st.totalIterations + 1 ≤ cfg.maxSteps * 3 by omega)
      · rw [if_neg htmo]
        exact mkFaultRun_runC1 _ _ _ h1 hm
          (show st.totalIterations + 1 ≤ cfg.maxSteps * 3 by omega)
  | cons c rest ih =>
    intro st hsc h htot hm
    simp only [runLoop]
    cases hg : loopGuard cfg st with
    | false =>
      simp only [Bool.false_eq_true, if_false]
      exact mkExhaustRun_runC1 cfg _ _ h hm htot
    | true =>
      simp only [if_true]
      obtain ⟨hg1, hg2⟩ := loopGuard_true hg
      have h1 : C1Inv { st with totalIterations := st.totalIterations + 1 } :=
        @c1Inv_congr st { st with totalIterations := st.totalIterations + 1 }
          rfl rfl rfl h
      by_cases htmo :
          cfg.timeoutSeconds * 1000 < cfg.elapsed (st.totalIterations + 1)
      · rw [if_pos htmo]
        exact mkTimeoutRun_runC1 cfg _ _ h1 hm
          (show st.totalIterations + 1 ≤ cfg.maxSteps * 3 by omega)
      · rw [if_neg htmo]
        cases c with
        | fault msg =>
          exact mkFaultRun_runC1 _ _ _ h1 hm
            (show st.totalIterations + 1 ≤ cfg.maxSteps * 3 by omega)
        | ok r =>
          have hcnt : countMeaningful r.content ≤ k :=
            hsc (PlannerCall.ok r) (List.mem_cons_self _ _)
          have H := processResponse_c1 r
            { st with totalIterations := st.totalIterations + 1 } h1
          cases hpr : processResponse r
              { st with totalIterations := st.totalIterations + 1 } with
          | halt e =>
            simp only [hpr] at H ⊢
            obtain ⟨hi, hm1, hm2, ht1⟩ := H
            exact haltC1_runC1 _ _ hi (by omega) (by omega)
          | cont st2 =>
            simp only [hpr] at H ⊢
            obtain ⟨hi, hm1, hm2, ht1⟩ := H
            exact ih st2 (fun c hc => hsc c (List.mem_cons_of_mem _ hc)) hi
              (by omega) (by omega)

/-! ## Main-loop invariant: rolling summary -/

/-- The summary invariant carried through part of a response. -/
def SumStep : BlockStep → Prop
  | .cont st' => SumInv st'
  | .halt e => SumInv e.final

theorem processBlocks_sum :
    ∀ (blocks : List Block) (st : LoopState), SumInv st →
    SumStep (processBlocks blocks st) := by
  intro blocks
  induction blocks with
  | nil => intro st h; exact h
  | cons b bs ih =>
    intro st h
    rw [processBlocks_cons]
    cases b with
    | text s =>
      simp only [processBlock]
      cases hpb : processTextBlock st s with
      | halt e =>
        simp only
        rcases processTextBlock_halt hpb with ⟨_, he⟩ | ⟨_, _, he⟩ <;>
          subst he <;> exact finalizeRun_sumInv _ _ _ _ _ h
      | cont st' =>
        simp only
        have hst' := processTextBlock_cont hpb
        subst hst'
        exact ih _ (sumInv_congr rfl rfl h)
    | toolUse d =>
      simp only [processBlock]
      exact ih _ (processToolUse_sumInv st d h)

theorem processResponse_sum (r : PlannerResponse) (st : LoopState)
    (h : SumInv st) : SumStep (processResponse r st) := by
  unfold processResponse
  have H := processBlocks_sum r.content { st with toolResults := 0 }
    (sumInv_congr rfl rfl h)
  cases hpb : processBlocks r.content { st with toolResults := 0 } with
  | halt e =>
    rw [hpb] at H
    exact H
  | cont st' =>
    rw [hpb] at H
    by_cases hend : (r.stopEndTurn && st'.toolResults == 0) = true
    · simp only [hend, if_true]
      exact finalizeRun_sumInv _ _ _ _ _ H
    · simp only [Bool.not_eq_true] at hend
      simp only [hend, Bool.false_eq_true, if_false]
      exact H

theorem runLoop_sum (cfg : Cfg) :
    ∀ (script : List PlannerCall) (st : LoopState), SumInv st →
    SumInv (runLoop cfg script st).final := by
  intro script
  induction script with
  | nil =>
    intro st h
    simp only [runLoop]
    cases hg : loopGuard cfg st with
    | false =>
      simp only [Bool.false_eq_true, if_false]
      exact finalizeRun_sumInv _ _ _ _ _ h
    | true =>
      simp only [if_true]
      by_cases ht : cfg.timeoutSeconds * 1000 < cfg.elapsed (st.totalIterations + 1)
      · rw [if_pos ht]
        exact finalizeRun_sumInv _ _ _ _ _ (sumInv_congr rfl rfl h)
      · rw [if_neg ht]
        exact finalizeRun_sumInv _ _ _ _ _ (sumInv_congr rfl rfl h)
  | cons c rest ih =>
    intro st h
    simp only [runLoop]
    cases hg : loopGuard cfg st with
    | false =>
      simp only [Bool.false_eq_true, if_false]
      exact finalizeRun_sumInv _ _ _ _ _ h
    | true =>
      simp only [if_true]
      by_cases ht : cfg.timeoutSeconds * 1000 < cfg.elapsed (st.totalIterations + 1)
      · rw [if_pos ht]
        exact finalizeRun_sumInv _ _ _ _ _ (sumInv_congr rfl rfl h)
      · rw [if_neg ht]
        cases c with
        | fault msg =>
          exact finalizeRun_sumInv _ _ _ _ _ (sumInv_congr rfl rfl h)
        | ok r =>
          have H := processResponse_sum r
            { st with totalIterations := st.totalIterations + 1 }
            (sumInv_congr rfl rfl h)
          cases hpr : processResponse r
              { st with totalIterations := st.totalIterations + 1 } with
          | halt e =>
            simp only [hpr] at H ⊢
            exact H
          | cont st2 =>
            simp only [hpr] at H ⊢
            exact ih st2 H

/-! ## Claim theorems -/

/-- C5: for all integers (x, y, width, height), the coordinate validator
returns valid iff `0 ≤ x < width` and `0 ≤ y < height`; otherwise it returns
the bounds-violation message naming the offending coordinates and the known
bounds.  The function is pure (a total Lean function of its four arguments,
with no state). -/
theorem validateCoordinates_spec :
    ∀ (x y width height : Int),
    ((validateCoordinates x y width height).valid = true ↔
      0 ≤ x ∧ x < width ∧ 0 ≤ y ∧ y < height) ∧
    (¬(0 ≤ x ∧ x < width ∧ 0 ≤ y ∧ y < height) →
      validateCoordinates x y width height =
        { valid := false, error := some (boundsErrorMsg x y width height) }) := by
  intro x y w h
  constructor
  · unfold validateCoordinates
    by_cases hc : x < 0 ∨ w ≤ x ∨ y < 0 ∨ h ≤ y
    · rw [if_pos hc]
      simp only
      constructor
      · intro hfalse
        exact absurd hfalse (by simp)
      · intro hin
        omega
    · rw [if_neg hc]
      simp only
      constructor
      · intro _
        omega
      · intro _
        trivial
  · intro hn
    unfold validateCoordinates
    rw [if_pos (by omega)]

/-- Witness for C5 at a concrete out-of-bounds input. -/
theorem validateCoordinates_spec_witness :
    ¬(0 ≤ (50 : Int) ∧ (50 : Int) < 10 ∧ 0 ≤ (50 : Int) ∧ (50 : Int) < 10) ∧
    validateCoordinates 50 50 10 10 =
      { valid := false, error := some (boundsErrorMsg 50 50 10 10) } :=
  ⟨by decide, (validateCoordinates_spec 50 50 10 10).2 (by decide)⟩

/-- C6: when the loop guard fails, `runLoop` returns the exhaustion result:
`success = false`, and the error string is the step-limit message when the
meaningful-step counter reached `maxSteps` and the safety-limit message
otherwise; the two message families never coincide, so a caller can branch
on which limit was hit. -/
theorem exhaustion_reporting_distinct :
    ∀ (cfg : Cfg) (script : List PlannerCall) (st : LoopState),
    loopGuard cfg st = false →
    runLoop cfg script st = mkExhaustRun cfg st ∧
    (mkExhaustRun cfg st).result.success = false ∧
    (cfg.maxSteps ≤ st.meaningfulSteps →
      (mkExhaustRun cfg st).result.error =
        some (stepsLimitMsg cfg.maxSteps st.meaningfulSteps)) ∧
    (st.meaningfulSteps < cfg.maxSteps →
      (mkExhaustRun cfg st).result.error =
        some (safetyLimitMsg st.totalIterations)) ∧
    (∀ a b c : Nat, stepsLimitMsg a b ≠ safetyLimitMsg c) := by
  intro cfg script st hg
  refine ⟨?_, rfl, ?_, ?_, ?_⟩
  · cases script <;> simp [runLoop, hg]
  · intro hle
    show some (if cfg.maxSteps ≤ st.meaningfulSteps then
        stepsLimitMsg cfg.maxSteps st.meaningfulSteps
      else safetyLimitMsg st.totalIterations) = _
    rw [if_pos hle]
  · intro hlt
    show some (if cfg.maxSteps ≤ st.meaningfulSteps then
        stepsLimitMsg cfg.maxSteps st.meaningfulSteps
      else safetyLimitMsg st.totalIterations) = _
    rw [if_neg (by omega)]
  · intro a b c heq
    have h2 := congrArg (fun s => s.data.head?) heq
    simp [stepsLimitMsg, safetyLimitMsg] at h2

/-- Witness for C6: a state that exhausted its step budget. -/
theorem exhaustion_reporting_distinct_witness :
    loopGuard ⟨1, 280, fun _ => 0⟩ { initState 1 with meaningfulSteps := 1 } =
      false ∧
    (runLoop ⟨1, 280, fun _ => 0⟩ []
        { initState 1 with meaningfulSteps := 1 } =
      mkExhaustRun ⟨1, 280, fun _ => 0⟩
        { initState 1 with meaningfulSteps := 1 } ∧
    (mkExhaustRun ⟨1, 280, fun _ => 0⟩
        { initState 1 with meaningfulSteps := 1 }).result.success = false ∧
    ((1 : Nat) ≤ 1 →
      (mkExhaustRun ⟨1, 280, fun _ => 0⟩
          { initState 1 with meaningfulSteps := 1 }).result.error =
        some (stepsLimitMsg 1 1)) ∧
    ((1 : Nat) < 1 →
      (mkExhaustRun ⟨1, 280, fun _ => 0⟩
          { initState 1 with meaningfulSteps := 1 }).result.error =
        some (safetyLimitMsg 0)) ∧
    (∀ a b c : Nat, stepsLimitMsg a b ≠ safetyLimitMsg c)) :=
  ⟨by decide,
   exhaustion_reporting_distinct ⟨1, 280, fun _ => 0⟩ []
     { initState 1 with meaningfulSteps := 1 } (by decide)⟩

/-- C7: the progress-store adapter makes `retries + 1 = 3` put attempts with
linearly increasing backoff (base × 1, base × 2) between attempts; when every
attempt fails it returns `none` (the failure is logged and swallowed — the
function is total, so nothing propagates past the adapter, and it never
touches the record's status); a successful attempt returns the blob url. -/
theorem updateProgress_retry_swallow :
    ∀ (putO : Nat → PutOutcome),
    ((∀ i, i ≤ 2 → putO i = .err) →
      updateProgress putO 2 =
        (none, [RETRY_BACKOFF_BASE_MS * 1, RETRY_BACKOFF_BASE_MS * 2])) ∧
    (∀ url, putO 0 = .ok url → updateProgress putO 2 = (some url, [])) := by
  intro putO
  constructor
  · intro h
    have h0 := h 0 (by omega)
    have h1 := h 1 (by omega)
    have h2 := h 2 (by omega)
    simp [updateProgress, updateProgressAux, h0, h1, h2]
  · intro url h0
    simp [updateProgress, updateProgressAux, h0]

/-- Witness for C7 with an always-failing put oracle. -/
theorem updateProgress_retry_swallow_witness :
    updateProgress (fun _ => PutOutcome.err) 2 =
      (none, [RETRY_BACKOFF_BASE_MS * 1, RETRY_BACKOFF_BASE_MS * 2]) :=
  (updateProgress_retry_swallow (fun _ => PutOutcome.err)).1 (fun _ _ => rfl)

/-- C8: `run_task` budget handling never rejects: both budgets are clamped to
the configured hard maxima; a non-finite (missing/non-numeric) or
non-positive raw value falls back to the configured default. -/
theorem run_task_budget_clamping :
    ∀ (raw : Option Int),
    runTaskMaxSteps raw ≤ MAX_STEPS_LIMIT ∧
    runTaskTimeoutSeconds raw ≤ MAX_TIMEOUT_SECONDS ∧
    ((raw = none ∨ ∃ v, raw = some v ∧ v ≤ 0) →
      runTaskMaxSteps raw = DEFAULT_MAX_STEPS ∧
      runTaskTimeoutSeconds raw = DEFAULT_TIMEOUT_SECONDS) ∧
    (∀ v, raw = some v → 0 < v →
      runTaskMaxSteps raw = min v MAX_STEPS_LIMIT ∧
      runTaskTimeoutSeconds raw = min v MAX_TIMEOUT_SECONDS) := by
  intro raw
  refine ⟨min_le_right _ _, min_le_right _ _, ?_, ?_⟩
  · rintro (rfl | ⟨v, rfl, hv⟩)
    · constructor <;> decide
    · have hnv : ¬(0 < v) := by omega
      unfold runTaskMaxSteps runTaskTimeoutSeconds clampBudget
      simp only [hnv, if_false]
      constructor <;> decide
  · rintro v rfl hv
    unfold runTaskMaxSteps runTaskTimeoutSeconds clampBudget
    simp only [hv, if_true]
    exact ⟨trivial, trivial⟩

/-- Witness for C8 at a negative caller-supplied budget. -/
theorem run_task_budget_clamping_witness :
    runTaskMaxSteps (some (-7)) = DEFAULT_MAX_STEPS ∧
    runTaskTimeoutSeconds (some (-7)) = DEFAULT_TIMEOUT_SECONDS :=
  (run_task_budget_clamping (some (-7))).2.2.1 (Or.inr ⟨-7, rfl, by decide⟩)

/-- C9: every progress record written during a task holds at most 5 rolling
summary entries, and pushing onto a full window evicts the oldest entry
first (FIFO). -/
theorem rolling_summary_bounded :
    (∀ (cfg : Cfg) (script : List PlannerCall),
      ∀ p ∈ (executeTask cfg script).final.writes,
        p.steps_summary.length ≤ 5) ∧
    (∀ (l : List String) (s : String), l.length = 5 →
      pushSummary l s = l.drop 1 ++ [s]) := by
  constructor
  · intro cfg script p hp
    have hinit : SumInv (initState cfg.maxSteps) := by
      constructor
      · simp [initState, initProgress]
      · intro q hq
        simp [initState] at hq
        subst hq
        simp [initProgress]
    exact (runLoop_sum cfg script (initState cfg.maxSteps) hinit).2 p hp
  · exact pushSummary_fifo

/-- Witness for C9: a trivial run plus a concrete FIFO eviction. -/
theorem rolling_summary_bounded_witness :
    (∀ p ∈ (executeTask ⟨1, 280, fun _ => 0⟩ []).final.writes,
      p.steps_summary.length ≤ 5) ∧
    pushSummary ["a", "b", "c", "d", "e"] "f" =
      ["a", "b", "c", "d", "e"].drop 1 ++ ["f"] :=
  ⟨rolling_summary_bounded.1 ⟨1, 280, fun _ => 0⟩ [],
   rolling_summary_bounded.2 ["a", "b", "c", "d", "e"] "f" rfl⟩

/-- Concrete successful left-click dispatch used by the C1 counterexample. -/
def C1cexClick : Directive :=
  { action := "left_click", coordinate := some (5, 5), key := none,
    text := none,
    outcome := .returns
      { content := .str "Clicked at (5, 5)", success := true, error := none,
        result := none } }

/-- Budget-1 configuration for the C1 counterexample (clock fixed at 0, so
the timeout never fires). -/
def C1cexCfg : Cfg := ⟨1, 280, fun _ => 0⟩

/-- A single planner response carrying two meaningful click directives. -/
def C1cexScript : List PlannerCall :=
  [.ok { content := [.toolUse C1cexClick, .toolUse C1cexClick],
         stopEndTurn := false }]

/-- C1 counterexample: with `step_budget = 1`, one planner response carrying
two meaningful directives pushes the written `current_step` to 2, exceeding
the budget — the loop checks the budget only between iterations, not between
the directives of one response.  The write trace is
`[0, 1, 2, 2]` (initial write, two per-step writes, final write). -/
theorem current_step_budget_cex :
    C1cexCfg.maxSteps = 1 ∧
    writesSteps (executeTask C1cexCfg C1cexScript).final = [0, 1, 2, 2] ∧
    (executeTask C1cexCfg C1cexScript).final.progress.current_step = 2 ∧
    (executeTask C1cexCfg C1cexScript).final.progress.max_steps = 1 := by
  decide

/-- C1 (amended): for every run — timeout runs included — the written
`current_step` values are monotonically non-decreasing and the total
iteration counter never exceeds `3 × step_budget`.  `current_step` is
bounded not by `step_budget` itself but by `step_budget - 1 + k`, where `k`
bounds the meaningful directives carried by a single planner response (the
original bound holds only for single-directive responses, `k = 1`): every
write except possibly the final one respects this bound, and when the run
did not end in a timeout the final write respects it too.  A timeout
finalization instead writes `steps.length` — the total step-record count,
observation and failed steps included — which can exceed any budget-derived
bound while still keeping the trace monotone. -/
theorem current_step_monotone_iterations_bounded :
    ∀ (cfg : Cfg) (script : List PlannerCall) (k : Nat),
    (∀ c ∈ script, callMeaningfulBound k c) →
    List.Chain' (· ≤ ·) (writesSteps (executeTask cfg script).final) ∧
    (executeTask cfg script).final.totalIterations ≤ cfg.maxSteps * 3 ∧
    (∀ x ∈ (writesSteps (executeTask cfg script).final).dropLast,
      x ≤ cfg.maxSteps - 1 + k) ∧
    ((executeTask cfg script).final.progress.status ≠ "timeout" →
      ∀ x ∈ writesSteps (executeTask cfg script).final,
        x ≤ cfg.maxSteps - 1 + k) := by
  intro cfg script k hsc
  have hinit : C1Inv (initState cfg.maxSteps) := by
    constructor
    · simp [initState, initProgress, writesSteps]
    · intro x hx
      simp [initState, initProgress, writesSteps] at hx
      subst hx
      exact Nat.zero_le _
    · simp [initState]
  exact runLoop_c1 cfg k script (initState cfg.maxSteps) hsc hinit
    (by simp [initState]) (by simp [initState])

/-- Witness for C1: an empty script with budget 2 and single-directive bound. -/
theorem current_step_monotone_iterations_bounded_witness :
    List.Chain' (· ≤ ·)
      (writesSteps (executeTask ⟨2, 280, fun _ => 0⟩ []).final) ∧
    (executeTask ⟨2, 280, fun _ => 0⟩ []).final.totalIterations ≤ 2 * 3 ∧
    (∀ x ∈ (writesSteps (executeTask ⟨2, 280, fun _ => 0⟩ []).final).dropLast,
      x ≤ 2 - 1 + 1) ∧
    ((executeTask ⟨2, 280, fun _ => 0⟩ []).final.progress.status ≠
        "timeout" →
      ∀ x ∈ writesSteps (executeTask ⟨2, 280, fun _ => 0⟩ []).final,
        x ≤ 2 - 1 + 1) :=
  current_step_monotone_iterations_bounded ⟨2, 280, fun _ => 0⟩ [] 1
    (by simp)

/-- A registered, non-observation directive whose handler throws, used by the
C2 counterexample. -/
def C2cexDir : Directive :=
  { action := "left_click", coordinate := some (5, 5), key := none,
    text := none, outcome := .throws "sandbox connection lost" }

/-- C2 counterexample: a registered non-observation action whose handler
throws is recorded as a failed step, but the meaningful-step counter is NOT
incremented (the increment sits inside the `try` block, after the handler
call) — contradicting the claim that the counter is incremented "including
when the handler throws an exception". -/
theorem step_increment_throw_cex :
    isRegistered C2cexDir.action = true ∧
    OBSERVATION_ACTIONS.contains C2cexDir.action = false ∧
    (initState 10).meaningfulSteps = 0 ∧
    (processToolUse (initState 10) C2cexDir).meaningfulSteps = 0 ∧
    (processToolUse (initState 10) C2cexDir).steps.map AgentStep.success =
      [false] := by
  decide

/-- C2 (amended): an observation action never increments the meaningful-step
counter; every other registered action whose handler returns increments it
exactly once per dispatch, even when the returned result reports failure
(the result `r` is unconstrained); a handler that throws does not
increment. -/
theorem step_counting_per_dispatch :
    ∀ (st : LoopState) (d : Directive),
    isRegistered d.action = true →
    (OBSERVATION_ACTIONS.contains d.action = true →
      (processToolUse st d).meaningfulSteps = st.meaningfulSteps) ∧
    (∀ r, d.outcome = .returns r →
      OBSERVATION_ACTIONS.contains d.action = false →
      (processToolUse st d).meaningfulSteps = st.meaningfulSteps + 1) ∧
    (∀ msg, d.outcome = .throws msg →
      (processToolUse st d).meaningfulSteps = st.meaningfulSteps) := by
  intro st d hreg
  refine ⟨?_, ?_, ?_⟩
  · intro hobs
    have hobs' : d.action ∈ OBSERVATION_ACTIONS := by simpa using hobs
    rw [processToolUse_meaningfulSteps]
    simp [meaningfulDisp, hobs']
  · intro r hr hobs
    have hobs' : d.action ∉ OBSERVATION_ACTIONS := by simpa using hobs
    rw [processToolUse_meaningfulSteps]
    simp [meaningfulDisp, hreg, hobs', hr]
  · intro msg hmsg
    rw [processToolUse_meaningfulSteps]
    simp [meaningfulDisp, hmsg]

/-- A registered action whose handler returns a structured failure, used by
the C2 witness. -/
def C2witDir : Directive :=
  { action := "left_click", coordinate := some (5, 5), key := none,
    text := none,
    outcome := .returns
      { content := .str "Click failed", success := false,
        error := some "element not found", result := none } }

/-- Witness for C2: a failure-returning click still counts exactly one step. -/
theorem step_counting_per_dispatch_witness :
    (processToolUse (initState 10) C2witDir).meaningfulSteps =
      (initState 10).meaningfulSteps + 1 :=
  (step_counting_per_dispatch (initState 10) C2witDir (by decide)).2.1
    _ rfl (by decide)

/-- C10: a directive whose action has no handler in the registry is recorded
as a failed step carrying the "Unknown action" error and processing continues
with the next directive; it consumes no step budget, performs no progress
write, does not change the progress record, and does not touch the held-key
set or issue any key-up call. -/
theorem unknown_action_handling :
    ∀ (st : LoopState) (d : Directive) (rest : List Block),
    isRegistered d.action = false →
    processBlocks (Block.toolUse d :: rest) st =
      processBlocks rest (processToolUse st d) ∧
    (processToolUse st d).meaningfulSteps = st.meaningfulSteps ∧
    (processToolUse st d).writes = st.writes ∧
    (processToolUse st d).progress = st.progress ∧
    (processToolUse st d).heldKeys = st.heldKeys ∧
    (processToolUse st d).keyUps = st.keyUps ∧
    (processToolUse st d).steps = st.steps ++
      [{ step := st.steps.length + 1, action := d.action, reasoning := none,
         coordinates := d.coordinate, result := none, success := false,
         error := some ("Unknown action: " ++ d.action) }] := by
  intro st d rest hreg
  refine ⟨rfl, ?_⟩
  unfold processToolUse
  simp [hreg]

/-- An unregistered directive (`release_key` is not in this registry) held
while a key is down, used by the C10 witness. -/
def C10witDir : Directive :=
  { action := "release_key", coordinate := none, key := some "shift",
    text := none, outcome := .throws "never dispatched" }

/-- Witness for C10 on a state with a held key. -/
theorem unknown_action_handling_witness :
    processBlocks [Block.toolUse C10witDir]
        { initState 4 with heldKeys := ["shift"] } =
      processBlocks []
        (processToolUse { initState 4 with heldKeys := ["shift"] }
          C10witDir) ∧
    (processToolUse { initState 4 with heldKeys := ["shift"] }
        C10witDir).meaningfulSteps =
      ({ initState 4 with heldKeys := ["shift"] } : LoopState).meaningfulSteps ∧
    (processToolUse { initState 4 with heldKeys := ["shift"] }
        C10witDir).writes =
      ({ initState 4 with heldKeys := ["shift"] } : LoopState).writes ∧
    (processToolUse { initState 4 with heldKeys := ["shift"] }
        C10witDir).progress =
      ({ initState 4 with heldKeys := ["shift"] } : LoopState).progress ∧
    (processToolUse { initState 4 with heldKeys := ["shift"] }
        C10witDir).heldKeys =
      ({ initState 4 with heldKeys := ["shift"] } : LoopState).heldKeys ∧
    (processToolUse { initState 4 with heldKeys := ["shift"] }
        C10witDir).keyUps =
      ({ initState 4 with heldKeys := ["shift"] } : LoopState).keyUps ∧
    (processToolUse { initState 4 with heldKeys := ["shift"] }
        C10witDir).steps =
      ({ initState 4 with heldKeys := ["shift"] } : LoopState).steps ++
        [{ step := ({ initState 4 with heldKeys := ["shift"] } :
              LoopState).steps.length + 1,
           action := C10witDir.action, reasoning := none,
           coordinates := C10witDir.coordinate, result := none,
           success := false,
           error := some ("Unknown action: " ++ C10witDir.action) }] :=
  unknown_action_handling { initState 4 with heldKeys := ["shift"] }
    C10witDir [] (by decide)

/-! ## Hold/auto-release behaviour -/

theorem trackHoldKeys_hold (X : LoopState) (d : Directive) (b : Bool)
    (K : String) (hb : (d.action == "hold_key" && b) = true)
    (hk : keyToHold d = some K) :
    trackHoldKeys X d b =
      { X with
        heldKeys :=
          if X.heldKeys.contains (lowerStr K) then X.heldKeys
          else X.heldKeys ++ [lowerStr K] } := by
  unfold trackHoldKeys
  rw [hb, hk]

/-- Dispatching a successful `hold_key` adds the (lower-cased) key to the
held set and issues no key-up call. -/
theorem processToolUse_hold (st : LoopState) (d : Directive) (r : ActionResult)
    (K : String) (ha : d.action = "hold_key") (ho : d.outcome = .returns r)
    (hs : r.success = true) (hk : keyToHold d = some K)
    (hheld : st.heldKeys = []) :
    (processToolUse st d).heldKeys = [lowerStr K] ∧
    (processToolUse st d).keyUps = st.keyUps := by
  unfold processToolUse
  have hreg : isRegistered d.action = true := by rw [ha]; decide
  have hnar : NO_AUTO_RELEASE_ACTIONS.contains d.action = true := by
    rw [ha]; decide
  have hb : (d.action == "hold_key" && r.success) = true := by
    rw [ha, hs]; rfl
  simp only [hreg, Bool.not_true, Bool.false_eq_true, if_false, ho]
  constructor
  · rw [updateMeaningful_heldKeys, autoReleaseKeys_exempt _ _ hnar,
      trackHoldKeys_hold _ _ _ _ hb hk]
    simp [hheld]
  · rw [updateMeaningful_keyUps, autoReleaseKeys_exempt _ _ hnar,
      trackHoldKeys_hold _ _ _ _ hb hk]

/-- Dispatching a registered, non-exempt action whose handler returns (with
any success flag) while keys are held issues one key-up per held key, in
insertion order, and clears the set. -/
theorem processToolUse_release (st : LoopState) (d : Directive)
    (r : ActionResult) (hreg : isRegistered d.action = true)
    (hnar : NO_AUTO_RELEASE_ACTIONS.contains d.action = false)
    (ho : d.outcome = .returns r) (hne : st.heldKeys ≠ []) :
    (processToolUse st d).keyUps = st.keyUps ++ st.heldKeys ∧
    (processToolUse st d).heldKeys = [] := by
  unfold processToolUse
  simp only [hreg, Bool.not_true, Bool.false_eq_true, if_false, ho]
  have hact : (d.action == "hold_key") = false := by
    by_contra hcon
    rw [Bool.not_eq_false, beq_iff_eq] at hcon
    rw [hcon] at hnar
    exact absurd hnar (by decide)
  constructor
  · rw [updateMeaningful_keyUps, trackHoldKeys_of_ne _ _ _ hact,
      autoReleaseKeys_release _ _ hnar]
    exact hne
  · rw [updateMeaningful_heldKeys, trackHoldKeys_of_ne _ _ _ hact,
      autoReleaseKeys_release _ _ hnar]
    exact hne

/-- The `hold_key` directive built from a planner request for key `K`, with
the successful handler outcome. -/
def holdKeyDirective (K : String) : Directive :=
  { action := "hold_key", coordinate := none, key := some K, text := none,
    outcome := .returns
      { content := .str ("Holding key: " ++ K), success := true,
        error := none, result := none } }

/-- C3 (amended): starting with no held keys, a successful `hold_key` for a
non-empty key `K` records `K` (lower-cased); a subsequent registered,
non-exempt directive whose handler *returns* — whether it reports success or
failure — issues exactly one key-up call for `K` and leaves the held-key set
empty.  (When the triggering handler throws, the release is skipped and `K`
stays held; key-up failures are logged only, so the set is cleared
unconditionally in the release path.) -/
theorem auto_release_after_hold :
    ∀ (st : LoopState) (K : String) (d : Directive) (r : ActionResult),
    K ≠ "" →
    st.heldKeys = [] →
    isRegistered d.action = true →
    NO_AUTO_RELEASE_ACTIONS.contains d.action = false →
    d.outcome = .returns r →
    (processToolUse st (holdKeyDirective K)).heldKeys = [lowerStr K] ∧
    (processToolUse st (holdKeyDirective K)).keyUps = st.keyUps ∧
    (processToolUse (processToolUse st (holdKeyDirective K)) d).keyUps =
      st.keyUps ++ [lowerStr K] ∧
    (processToolUse (processToolUse st (holdKeyDirective K)) d).heldKeys =
      [] := by
  intro st K d r hK hheld hreg hnar ho
  have hkth : keyToHold (holdKeyDirective K) = some K := by
    unfold keyToHold jsStrOr holdKeyDirective
    simp [hK]
  have h1 := processToolUse_hold st (holdKeyDirective K) _ K rfl rfl rfl hkth
    hheld
  have h2 := processToolUse_release (processToolUse st (holdKeyDirective K))
    d r hreg hnar ho (by rw [h1.1]; simp)
  refine ⟨h1.1, h1.2, ?_, h2.2⟩
  rw [h2.1, h1.1, h1.2]

/-- A failure-returning double-click, used by the C3 witness. -/
def C3witClick : Directive :=
  { action := "double_click", coordinate := some (7, 7), key := none,
    text := none,
    outcome := .returns
      { content := .str "Double-click failed", success := false,
        error := some "target vanished", result := none } }

/-- Witness for C3: hold shift, then a failed double-click still releases. -/
theorem auto_release_after_hold_witness :
    (processToolUse (initState 10) (holdKeyDirective "Shift")).heldKeys =
      [lowerStr "Shift"] ∧
    (processToolUse (initState 10) (holdKeyDirective "Shift")).keyUps =
      (initState 10).keyUps ∧
    (processToolUse (processToolUse (initState 10) (holdKeyDirective "Shift"))
        C3witClick).keyUps =
      (initState 10).keyUps ++ [lowerStr "Shift"] ∧
    (processToolUse (processToolUse (initState 10) (holdKeyDirective "Shift"))
        C3witClick).heldKeys = [] :=
  auto_release_after_hold (initState 10) "Shift" C3witClick _ (by decide)
    rfl (by decide) (by decide) rfl

/-- The hold directive of the C3 counterexample. -/
def C3cexHold : Directive := holdKeyDirective "shift"

/-- A registered, non-exempt directive whose handler throws, used by the C3
counterexample. -/
def C3cexClick : Directive :=
  { action := "left_click", coordinate := some (3, 3), key := none,
    text := none, outcome := .throws "connection reset" }

/-- C3 counterexample: after a successful `hold_key("shift")`, dispatching a
non-exempt `left_click` whose handler THROWS issues no key-up call and leaves
"shift" held — the auto-release sits inside the `try` block, so a throwing
triggering action skips it, contradicting the claim for "any action not in
the exempt set ... regardless of whether that triggering action
succeeded". -/
theorem auto_release_throw_cex :
    NO_AUTO_RELEASE_ACTIONS.contains C3cexClick.action = false ∧
    isRegistered C3cexClick.action = true ∧
    (processToolUse (initState 10) C3cexHold).heldKeys = ["shift"] ∧
    (processToolUse (processToolUse (initState 10) C3cexHold)
        C3cexClick).heldKeys = ["shift"] ∧
    (processToolUse (processToolUse (initState 10) C3cexHold)
        C3cexClick).keyUps = [] ∧
    (processToolUse (processToolUse (initState 10) C3cexHold)
        C3cexClick).steps.map AgentStep.success = [true, false] := by
  decide

/-- C4 (amended): a text block containing a completion (resp. failure)
marker terminates the task as completed (resp. failed) with the marker's
trailing text, and no directive *after* the marker block in the same
response is executed (the result does not depend on `post`); directives
*before* the marker are processed normally — the marker does not retract
them. -/
theorem marker_termination :
    ∀ (pre post : List Block) (s : String) (st st' : LoopState),
    processBlocks pre st = .cont st' →
    (strContains s TASK_COMPLETE_MARKER = true →
      processBlocks (pre ++ Block.text s :: post) st =
        .halt (finalizeRun st' "completed" true
          (markerTrailing s TASK_COMPLETE_MARKER) st'.meaningfulSteps none)) ∧
    (strContains s TASK_COMPLETE_MARKER = false →
      strContains s TASK_FAILED_MARKER = true →
      processBlocks (pre ++ Block.text s :: post) st =
        .halt (finalizeRun st' "failed" false
          (markerTrailing s TASK_FAILED_MARKER) st'.meaningfulSteps
          (some "Task failed"))) := by
  intro pre post s st st' hpre
  constructor
  · intro hc
    calc processBlocks (pre ++ Block.text s :: post) st
        = processBlocks (Block.text s :: post) st' := by
          rw [processBlocks_append, hpre]
      _ = _ := by
          rw [processBlocks_cons]
          simp [processBlock, processTextBlock, hc]
  · intro hc hf
    calc processBlocks (pre ++ Block.text s :: post) st
        = processBlocks (Block.text s :: post) st' := by
          rw [processBlocks_append, hpre]
      _ = _ := by
          rw [processBlocks_cons]
          simp [processBlock, processTextBlock, hc, hf]

/-- Witness for C4: a marker followed by a (never-executed) click directive. -/
theorem marker_termination_witness :
    processBlocks
        (([] : List Block) ++ Block.text "TASK_COMPLETE: Opened app" ::
          [Block.toolUse
            { action := "left_click", coordinate := some (1, 1), key := none,
              text := none, outcome := .throws "never dispatched" }])
        (initState 10) =
      .halt (finalizeRun (initState 10) "completed" true
        (markerTrailing "TASK_COMPLETE: Opened app" TASK_COMPLETE_MARKER)
        (initState 10).meaningfulSteps none) :=
  (marker_termination []
    [Block.toolUse
      { action := "left_click", coordinate := some (1, 1), key := none,
        text := none, outcome := .throws "never dispatched" }]
    "TASK_COMPLETE: Opened app" (initState 10) (initState 10) rfl).1
    (by decide)

/-- A successful left-click, used by the C4 counterexample. -/
def C4cexClick : Directive :=
  { action := "left_click", coordinate := some (5, 5), key := none,
    text := none,
    outcome := .returns
      { content := .str "Clicked at (5, 5)", success := true, error := none,
        result := none } }

/-- Configuration for the C4 counterexample. -/
def C4cexCfg : Cfg := ⟨10, 280, fun _ => 0⟩

/-- One planner response whose click directive PRECEDES the completion
marker. -/
def C4cexScript : List PlannerCall :=
  [.ok { content := [.toolUse C4cexClick, .text "TASK_COMPLETE: done"],
         stopEndTurn := false }]

/-- C4 counterexample: blocks are processed in response order, so a directive
appearing before the marker in the same response IS executed before the
marker terminates the task — the task completes with summary "done" but one
step was taken and one meaningful action recorded, contradicting "no
directive of that response is executed". -/
theorem marker_priority_cex :
    (executeTask C4cexCfg C4cexScript).result.success = true ∧
    (executeTask C4cexCfg C4cexScript).result.summary = "done" ∧
    (executeTask C4cexCfg C4cexScript).result.steps_taken = 1 ∧
    (executeTask C4cexCfg C4cexScript).final.steps.length = 1 ∧
    (executeTask C4cexCfg C4cexScript).final.progress.current_step = 1 := by
  decide
